import Mathlib

/-!
Verification development for the t-spline repository.

The embedding models the latest snapshot of the library: the T-mesh store
and knot inference from src/tmesh.rs, the tessellation command and cubic
basis kernel from src/commands/tessellate.rs, the legacy basis kernel from
src/tesselation.rs, the face-split command from src/commands/split_face.rs,
the segment primitive from t_spline/src/tmesh/segment.rs and the seed
constructors from the shapes modules.

Conventions of the embedding:
* the f64 scalar is modelled by the rationals; every decimal literal of the
  source denotes the exact rational it spells;
* the opaque integer handles VertID, EdgeID and FaceID are plain naturals;
* table lookups self.vertices[i] are total via getD with a default element
  (the Rust code panics on an out-of-range handle; the theorems that need
  in-range handles carry an explicit well-formedness hypothesis);
* source loops whose iteration count is not syntactically bounded receive a
  fuel argument of edges.length + 1; a Rust execution that terminates never
  revisits a half-edge, so it performs at most that many iterations and the
  fuel never runs out on such meshes.
-/

namespace TSP

/-- Exact rational value of the Rust literal 1e-14 used by the basis kernel. -/
def eps14 : ℚ := 1 / 100000000000000

/-- Exact rational value of the Rust literal 1e-12 (collinearity and
coincident-knot tolerance). -/
def eps12 : ℚ := 1 / 1000000000000

/-- Exact rational value of the Rust literal 1e-9 (denominator underflow and
segment orientation tolerance). -/
def eps9 : ℚ := 1 / 1000000000

/-- Exact rational value of the Rust literal 1e-6 (face-intersection forward
test and face-split candidate tolerance). -/
def eps6 : ℚ := 1 / 1000000

/-- Exact rational value of f64::MAX, the sentinel used by bounds folds and
the closest-distance accumulator; the literal spells (2 ^ 53 - 1) * 2 ^ 971
in full so that it reduces without unary exponentiation. -/
def f64MAX : ℚ := 179769313486231570814527423731704356798070567525844996598917476803157260780028538760589558632766878171540458953514382464234321326889464182768467546703537516986049910576551282076245490090389328944075868508455133942304583236903222948165808559332123348274797826204144723168738177180919299881250404026184124858368

/-- Parametric direction tag of a half-edge (src/tmesh/direction.rs). -/
inductive Direction where
  | S
  | T
deriving DecidableEq

/-- A 2D parametric point (segment.rs ParamPoint). -/
structure ParamPoint where
  s : ℚ
  t : ℚ
deriving DecidableEq

/-- Homogeneous 4D geometry of a control point (cgmath Vector4 over f64). -/
structure Vector4 where
  x : ℚ
  y : ℚ
  z : ℚ
  w : ℚ
deriving DecidableEq

/-- A 3D surface point (cgmath Point3 over f64). -/
structure Point3 where
  x : ℚ
  y : ℚ
  z : ℚ
deriving DecidableEq

/-- Componentwise sum of two homogeneous vectors. -/
def Vector4.add (a b : Vector4) : Vector4 :=
  ⟨a.x + b.x, a.y + b.y, a.z + b.z, a.w + b.w⟩

/-- Componentwise difference of two homogeneous vectors. -/
def Vector4.sub (a b : Vector4) : Vector4 :=
  ⟨a.x - b.x, a.y - b.y, a.z - b.z, a.w - b.w⟩

/-- Scalar multiple of a homogeneous vector. -/
def Vector4.smul (a : Vector4) (c : ℚ) : Vector4 :=
  ⟨a.x * c, a.y * c, a.z * c, a.w * c⟩

/-- Control point record (src/tmesh/control_point.rs). -/
structure ControlPoint where
  geometry : Vector4
  uv : ParamPoint
  outgoing_edge : Option Nat
  is_t_junction : Bool
deriving DecidableEq

/-- Half-edge record (src/tmesh/half_edge.rs). -/
structure HalfEdge where
  origin : Nat
  twin : Option Nat
  face : Option Nat
  next : Nat
  prev : Nat
  knot_interval : ℚ
  direction : Direction
deriving DecidableEq

/-- Face record (src/tmesh/face.rs). -/
structure Face where
  edge : Nat
deriving DecidableEq

/-- The T-mesh: three flat tables (src/tmesh.rs TMesh). -/
structure TMesh where
  vertices : List ControlPoint
  edges : List HalfEdge
  faces : List Face
deriving DecidableEq

instance : Inhabited Direction := ⟨Direction.S⟩

instance : Inhabited ParamPoint := ⟨⟨0, 0⟩⟩

instance : Inhabited ControlPoint := ⟨⟨⟨0, 0, 0, 0⟩, ⟨0, 0⟩, none, false⟩⟩

instance : Inhabited HalfEdge := ⟨⟨0, none, none, 0, 0, 0, Direction.S⟩⟩

instance : Inhabited Face := ⟨⟨0⟩⟩

/-- Total lookup of self.vertices[i]. -/
def vertexD (m : TMesh) (i : Nat) : ControlPoint := m.vertices.getD i default

/-- Total lookup of self.edges[i]. -/
def edgeD (m : TMesh) (i : Nat) : HalfEdge := m.edges.getD i default

/-- Total lookup of self.faces[i]. -/
def faceD (m : TMesh) (i : Nat) : Face := m.faces.getD i default

/-- The coordinate of a parametric point along an axis; transcribes the
match axis blocks of the source. -/
def axisCoord (axis : Direction) (p : ParamPoint) : ℚ :=
  match axis with
  | Direction.S => p.s
  | Direction.T => p.t

/-- The p2 endpoint rule of the source: the twin's origin when a twin
exists, otherwise the origin of next (find_face_intersection, split_edge). -/
def edgeDest (m : TMesh) (e : HalfEdge) : Nat :=
  match e.twin with
  | some tw => (edgeD m tw).origin
  | none => (edgeD m e.next).origin

/-- Loop body of TMesh::face_edges: push curr, advance along next, stop when
the start edge recurs.  Fuel replaces the unbounded Rust loop. -/
def faceEdgesAux (m : TMesh) (start : Nat) : Nat → Nat → List Nat → List Nat
  | _, 0, acc => acc.reverse
  | curr, fuel + 1, acc =>
    let acc' := curr :: acc
    let nxt := (edgeD m curr).next
    if nxt = start then acc'.reverse else faceEdgesAux m start nxt fuel acc'

/-- TMesh::face_edges (src/tmesh.rs): ordered boundary loop of a face. -/
def face_edges (m : TMesh) (face_id : Nat) : List Nat :=
  let start := (faceD m face_id).edge
  faceEdgesAux m start start (m.edges.length + 1) []

/-- Spoke-circulation loop body of TMesh::find_next_vertex_in_direction.
A missing twin anywhere aborts the whole search with none, exactly like the
question-mark operator in the source. -/
def findNextAux (m : TMesh) (v : ControlPoint) (axis : Direction)
    (positive : Bool) (start : Nat) : Nat → Nat → Option Nat
  | _, 0 => none
  | curr, fuel + 1 =>
    let edge := edgeD m curr
    match edge.twin with
    | none => none
    | some tw =>
      let dest_id := (edgeD m tw).origin
      let dest_v := vertexD m dest_id
      let delta :=
        match axis with
        | Direction.S => dest_v.uv.s - v.uv.s
        | Direction.T => dest_v.uv.t - v.uv.t
      let ortho :=
        match axis with
        | Direction.S => |dest_v.uv.t - v.uv.t|
        | Direction.T => |dest_v.uv.s - v.uv.s|
      if ortho < eps12 ∧ ((positive = true ∧ delta > eps12) ∨
          (positive = false ∧ delta < -eps12)) then
        some dest_id
      else
        match (edgeD m edge.prev).twin with
        | none => none
        | some nxt => if nxt = start then none else findNextAux m v axis positive start nxt fuel

/-- TMesh::find_next_vertex_in_direction (src/tmesh.rs). -/
def find_next_vertex_in_direction (m : TMesh) (v_id : Nat) (axis : Direction)
    (positive : Bool) : Option Nat :=
  let v := vertexD m v_id
  match v.outgoing_edge with
  | none => none
  | some start => findNextAux m v axis positive start start (m.edges.length + 1)

/-- One candidate test of TMesh::find_face_intersection: one bounding edge
of an incident face against the axis-aligned ray.  The accumulator carries
the closest distance so far and the best coordinate. -/
def faceIntersectStep (m : TMesh) (axis : Direction) (positive : Bool)
    (ray_const ray_start : ℚ) (acc : ℚ × Option ℚ) (eid : Nat) : ℚ × Option ℚ :=
  let edge := edgeD m eid
  let p1 := (vertexD m edge.origin).uv
  let p2 := (vertexD m (edgeDest m edge)).uv
  let e_p1_const := match axis with | Direction.S => p1.t | Direction.T => p1.s
  let e_p1_var := match axis with | Direction.S => p1.s | Direction.T => p1.t
  let e_p2_const := match axis with | Direction.S => p2.t | Direction.T => p2.s
  let e_p2_var := match axis with | Direction.S => p2.s | Direction.T => p2.t
  let min_c := min e_p1_const e_p2_const
  let max_c := max e_p1_const e_p2_const
  if ray_const ≥ min_c - eps9 ∧ ray_const ≤ max_c + eps9 then
    if |e_p2_const - e_p1_const| < eps12 then acc
    else
      let tt := (ray_const - e_p1_const) / (e_p2_const - e_p1_const)
      let intersect_var := e_p1_var + tt * (e_p2_var - e_p1_var)
      let dist := intersect_var - ray_start
      if ((positive = true ∧ dist > eps6) ∨ (positive = false ∧ dist < -eps6)) ∧
          |dist| < acc.1 then
        (|dist|, some intersect_var)
      else acc
  else acc

/-- Spoke loop of TMesh::find_face_intersection: fold the candidate test
over the edges of every face incident to the start vertex. -/
def faceIntersectSpokes (m : TMesh) (axis : Direction) (positive : Bool)
    (ray_const ray_start : ℚ) (start : Nat) : Nat → Nat → ℚ × Option ℚ → ℚ × Option ℚ
  | _, 0, acc => acc
  | curr, fuel + 1, acc =>
    let spoke := edgeD m curr
    let acc' :=
      match spoke.face with
      | some fid =>
        (face_edges m fid).foldl (faceIntersectStep m axis positive ray_const ray_start) acc
      | none => acc
    match spoke.twin with
    | none => acc'
    | some tw =>
      let nxt := (edgeD m tw).next
      if nxt = start then acc'
      else faceIntersectSpokes m axis positive ray_const ray_start start nxt fuel acc'

/-- TMesh::find_face_intersection (src/tmesh.rs): nearest intersection of
the ray from start_v with a bounding edge of an incident face, strictly
ahead of the ray start. -/
def find_face_intersection (m : TMesh) (start_v : Nat) (axis : Direction)
    (positive : Bool) : Option ℚ :=
  let v := vertexD m start_v
  match v.outgoing_edge with
  | none => none
  | some start =>
    let ray_const := match axis with | Direction.S => v.uv.t | Direction.T => v.uv.s
    let ray_start := match axis with | Direction.S => v.uv.s | Direction.T => v.uv.t
    (faceIntersectSpokes m axis positive ray_const ray_start start start
      (m.edges.length + 1) (f64MAX, none)).2

/-- TMesh::trace_knots (src/tmesh.rs).  The source while loop makes at most
two productive iterations (each failure branch fills every remaining slot),
so it is transcribed as its full unrolling; the pair holds results[0] and
results[1]. -/
def trace_knots (m : TMesh) (start_v : Nat) (axis : Direction)
    (positive : Bool) : ℚ × ℚ :=
  match find_next_vertex_in_direction m start_v axis positive with
  | some v1 =>
    let r0 := axisCoord axis (vertexD m v1).uv
    match find_next_vertex_in_direction m v1 axis positive with
    | some v2 => (r0, axisCoord axis (vertexD m v2).uv)
    | none =>
      match find_face_intersection m v1 axis positive with
      | some c => (r0, c)
      | none => (r0, r0)
  | none =>
    match find_face_intersection m start_v axis positive with
    | some c => (c, c)
    | none =>
      let c := axisCoord axis (vertexD m start_v).uv
      (c, c)

/-- A length-5 local knot vector, k0 through k4. -/
structure Knot5 where
  k0 : ℚ
  k1 : ℚ
  k2 : ℚ
  k3 : ℚ
  k4 : ℚ
deriving DecidableEq

instance : Inhabited Knot5 := ⟨⟨0, 0, 0, 0, 0⟩⟩

/-- The per-vertex pair of local knot vectors (type LocalKnots). -/
def LocalKnots := Knot5 × Knot5

instance : Inhabited LocalKnots := ⟨(default, default)⟩

instance : DecidableEq LocalKnots := instDecidableEqProd

/-- TMesh::infer_local_knots (src/tmesh.rs): four ray traces assembled into
the two knot vectors, with the boundary multiplicity-4 collapse. -/
def infer_local_knots (m : TMesh) (v_id : Nat) : LocalKnots :=
  let v := vertexD m v_id
  let s2 := v.uv.s
  let t2 := v.uv.t
  let s_pos := trace_knots m v_id Direction.S true
  let s_neg := trace_knots m v_id Direction.S false
  let t_pos := trace_knots m v_id Direction.T true
  let t_neg := trace_knots m v_id Direction.T false
  let s_knots : Knot5 :=
    if s_neg.1 = s2 ∧ s_neg.2 = s2 then ⟨s2, s2, s2, s2, s_pos.1⟩
    else if s_pos.1 = s2 ∧ s_pos.2 = s2 then ⟨s_neg.2, s2, s2, s2, s2⟩
    else ⟨s_neg.2, s_neg.1, s2, s_pos.1, s_pos.2⟩
  let t_knots : Knot5 :=
    if t_neg.1 = t2 ∧ t_neg.2 = t2 then ⟨t2, t2, t2, t2, t_pos.1⟩
    else if t_pos.1 = t2 ∧ t_pos.2 = t2 then ⟨t_neg.2, t2, t2, t2, t2⟩
    else ⟨t_neg.2, t_neg.1, t2, t_pos.1, t_pos.2⟩
  (s_knots, t_knots)

/-- TMesh::knot_vectors (src/tmesh.rs): the knot cache, one entry per
vertex.  The rayon parallel map is order-preserving by index. -/
def knot_vectors (m : TMesh) : List LocalKnots :=
  (List.range m.vertices.length).map (infer_local_knots m)

/-- Parametric bounding box (src/tmesh.rs Bounds). -/
structure Bounds where
  s : ℚ × ℚ
  t : ℚ × ℚ

/-- TMesh::bounds (src/tmesh.rs): componentwise min and max over all
vertices, folded from the f64::MAX / f64::MIN sentinels. -/
def bounds (m : TMesh) : Bounds :=
  let r := m.vertices.foldl
    (fun (acc : ℚ × ℚ × ℚ × ℚ) v =>
      let acc := if v.uv.s < acc.1 then (v.uv.s, acc.2.1, acc.2.2.1, acc.2.2.2) else acc
      let acc := if v.uv.s > acc.2.1 then (acc.1, v.uv.s, acc.2.2.1, acc.2.2.2) else acc
      let acc := if v.uv.t < acc.2.2.1 then (acc.1, acc.2.1, v.uv.t, acc.2.2.2) else acc
      if v.uv.t > acc.2.2.2 then (acc.1, acc.2.1, acc.2.2.1, v.uv.t) else acc)
    (f64MAX, -f64MAX, f64MAX, -f64MAX)
  ⟨(r.1, r.2.1), (r.2.2.1, r.2.2.2)⟩

/-- One guarded left term of the Cox-de-Boor recurrence: the source adds
((u - knots[i]) / den1) * n[i] only when den1.abs() exceeds 1e-12. -/
def cdbLeft (u ki kip ni : ℚ) : ℚ :=
  if |kip - ki| > eps12 then ((u - ki) / (kip - ki)) * ni else 0

/-- One guarded right term of the Cox-de-Boor recurrence: the source adds
((knots[i+p+1] - u) / den2) * n[i+1] only when den2.abs() exceeds 1e-12. -/
def cdbRight (u kip1 ki1 ni1 : ℚ) : ℚ :=
  if |kip1 - ki1| > eps12 then ((kip1 - u) / (kip1 - ki1)) * ni1 else 0

/-- cubic_basis_function (src/commands/tessellate.rs): support guard, left
limit at the right end of the support, degree-0 step functions on u_eval,
then the recurrence for degrees 1, 2, 3 evaluated at u.  The nested source
loops over p and i are unrolled; layer p stores 4 - p values. -/
def cubic_basis_function (u : ℚ) (k : Knot5) : ℚ :=
  if u < k.k0 ∨ u > k.k4 then 0
  else
    let u_eval := if u ≥ k.k4 then k.k4 - eps14 else u
    let n0 : ℚ := if u_eval ≥ k.k0 ∧ u_eval < k.k1 then 1 else 0
    let n1 : ℚ := if u_eval ≥ k.k1 ∧ u_eval < k.k2 then 1 else 0
    let n2 : ℚ := if u_eval ≥ k.k2 ∧ u_eval < k.k3 then 1 else 0
    let n3 : ℚ := if u_eval ≥ k.k3 ∧ u_eval < k.k4 then 1 else 0
    let a0 := cdbLeft u k.k0 k.k1 n0 + cdbRight u k.k2 k.k1 n1
    let a1 := cdbLeft u k.k1 k.k2 n1 + cdbRight u k.k3 k.k2 n2
    let a2 := cdbLeft u k.k2 k.k3 n2 + cdbRight u k.k4 k.k3 n3
    let b0 := cdbLeft u k.k0 k.k2 a0 + cdbRight u k.k3 k.k1 a1
    let b1 := cdbLeft u k.k1 k.k3 a1 + cdbRight u k.k4 k.k2 a2
    cdbLeft u k.k0 k.k3 b0 + cdbRight u k.k4 k.k1 b1

/-- The legacy basis kernel of src/tesselation.rs.  Its guard tests
u > knots[1] (against its own support comment), it does not clamp u, and
its degree-0 layer closes the right end with u == knots[1] on the last
interval; the recurrence layers are identical. -/
def tesselation_cubic_basis_function (u : ℚ) (k : Knot5) : ℚ :=
  if u < k.k0 ∨ u > k.k1 then 0
  else
    let n0 : ℚ := if u ≥ k.k0 ∧ u < k.k1 then 1 else 0
    let n1 : ℚ := if u ≥ k.k1 ∧ u < k.k2 then 1 else 0
    let n2 : ℚ := if u ≥ k.k2 ∧ u < k.k3 then 1 else 0
    let n3 : ℚ := if u ≥ k.k3 ∧ (u < k.k4 ∨ u = k.k1) then 1 else 0
    let a0 := cdbLeft u k.k0 k.k1 n0 + cdbRight u k.k2 k.k1 n1
    let a1 := cdbLeft u k.k1 k.k2 n1 + cdbRight u k.k3 k.k2 n2
    let a2 := cdbLeft u k.k2 k.k3 n2 + cdbRight u k.k4 k.k3 n3
    let b0 := cdbLeft u k.k0 k.k2 a0 + cdbRight u k.k3 k.k1 a1
    let b1 := cdbLeft u k.k1 k.k3 a1 + cdbRight u k.k4 k.k2 a2
    cdbLeft u k.k0 k.k3 b0 + cdbRight u k.k4 k.k1 b1

/-- Accumulation loop of subs (src/commands/tessellate.rs): fold over the
enumerated vertices, skipping any vertex whose knot support box misses
(s, t); the numerator takes a contribution only above the 1e-12 magnitude
gate while the denominator always accumulates. -/
def subsAcc (m : TMesh) (s t : ℚ) (knot_cache : List LocalKnots) : Vector4 × ℚ :=
  (List.range m.vertices.length).foldl
    (fun (acc : Vector4 × ℚ) i =>
      let vert := vertexD m i
      let sk := (knot_cache.getD i default).1
      let tk := (knot_cache.getD i default).2
      if s < sk.k0 ∨ s > sk.k4 ∨ t < tk.k0 ∨ t > tk.k4 then acc
      else
        let basis_s := cubic_basis_function s sk
        let basis_t := cubic_basis_function t tk
        let weight := vert.geometry.w
        let basis := basis_s * basis_t * weight
        let numerator :=
          if |basis| > eps12 then Vector4.add acc.1 (Vector4.smul vert.geometry basis)
          else acc.1
        (numerator, acc.2 + basis_s * basis_t * weight))
    (⟨0, 0, 0, 0⟩, 0)

/-- subs (src/commands/tessellate.rs): the rational tensor-product
evaluator; none models the Rust None for an underflowed denominator. -/
def subs (m : TMesh) (s t : ℚ) (knot_cache : List LocalKnots) : Option Point3 :=
  let acc := subsAcc m s t knot_cache
  if |acc.2| < eps9 then none
  else some ⟨acc.1.x / acc.2, acc.1.y / acc.2, acc.1.z / acc.2⟩

/-- The parametric sample of grid position i inside Tessellate::execute
(src/commands/tessellate.rs): row-major index split, then the guarded
linear interpolation over the mesh bounds.  For resolution 0 the Rust
index arithmetic would panic; naturals make it total here. -/
def tessSample (m : TMesh) (resolution : Nat) (i : Nat) : ℚ × ℚ :=
  let b := bounds m
  let denom : ℚ := ((resolution - 1 : Nat) : ℚ)
  let u_i := i % resolution
  let v_i := i / resolution
  let s :=
    if resolution > 1 then b.s.1 + ((u_i : ℚ) / denom) * (b.s.2 - b.s.1)
    else b.s.1
  let t :=
    if resolution > 1 then b.t.1 + ((v_i : ℚ) / denom) * (b.t.2 - b.t.1)
    else b.t.1
  (s, t)

/-- Tessellate::execute (src/commands/tessellate.rs): build the knot cache
once, evaluate every cell of the resolution-squared grid, and keep the
defined points in row-major order (map then filter_map of the identity,
as in the source pipeline). -/
def tessellate_execute (resolution : Nat) (m : TMesh) : List Point3 :=
  let knot_cache := knot_vectors m
  (((List.range (resolution * resolution)).map
    (fun i =>
      let st := tessSample m resolution i
      subs m st.1 st.2 knot_cache))).filterMap id

/-- Shorthand for one add_edge call of the shape constructors; the argument
order (origin, next, prev, twin, face, direction, interval) follows the
source helper. -/
def he (origin next prev : Nat) (twin face : Option Nat) (dir : Direction)
    (interval : ℚ) : HalfEdge :=
  ⟨origin, twin, face, next, prev, interval, dir⟩

/-- TSpline::new_unit_square (shapes.rs): 4 corner vertices, a CCW inner
loop with twins forming a CW outer boundary loop, one face. -/
def newUnitSquare : TMesh :=
  let coords : List (ℚ × ℚ) := [(0, 0), (1, 0), (1, 1), (0, 1)]
  let vertices := coords.mapIdx (fun i c =>
    ({ geometry := ⟨c.1, c.2, 0, 1⟩, uv := ⟨c.1, c.2⟩,
       outgoing_edge := some i, is_t_junction := false } : ControlPoint))
  let inner := (List.range 4).map (fun i =>
    he i ((i + 1) % 4) ((i + 3) % 4) (some (i + 4)) (some 0)
      (if i % 2 = 0 then Direction.S else Direction.T) 1)
  let outer := (List.range 4).map (fun i =>
    he ((i + 1) % 4) (((i + 3) % 4) + 4) (((i + 1) % 4) + 4) (some i) none
      (if i % 2 = 0 then Direction.S else Direction.T) 1)
  ⟨vertices, inner ++ outer, [⟨0⟩]⟩

/-- TSpline::new_t_junction (t_spline/src/shapes.rs): 3x3 lattice minus one
vertex, with vertex 3 at (1,1) flagged as the T-junction; 13 interior and 7
boundary half-edges, 3 faces, all knot intervals 1.  The outgoing edge of
each vertex is the first pushed edge with that origin. -/
def newTJunction : TMesh :=
  let coords : List (ℚ × ℚ) :=
    [(0, 0), (1, 0), (2, 0), (1, 1), (2, 1), (0, 2), (1, 2), (2, 2)]
  let outgoing : List Nat := [0, 1, 6, 2, 7, 4, 3, 11]
  let vertices := coords.mapIdx (fun i c =>
    ({ geometry := ⟨c.1, c.2, 0, 1⟩, uv := ⟨c.1, c.2⟩,
       outgoing_edge := some (outgoing.getD i 0), is_t_junction := i = 3 } : ControlPoint))
  let edges : List HalfEdge :=
    [he 0 1 4 (some 13) (some 0) Direction.S 1,
     he 1 2 0 (some 8) (some 0) Direction.T 1,
     he 3 3 1 (some 12) (some 0) Direction.T 1,
     he 6 4 2 (some 18) (some 0) Direction.S 1,
     he 5 0 3 (some 19) (some 0) Direction.T 1,
     he 1 6 8 (some 14) (some 1) Direction.S 1,
     he 2 7 5 (some 15) (some 1) Direction.T 1,
     he 4 8 6 (some 9) (some 1) Direction.S 1,
     he 3 5 7 (some 1) (some 1) Direction.T 1,
     he 3 10 12 (some 7) (some 2) Direction.S 1,
     he 4 11 9 (some 16) (some 2) Direction.T 1,
     he 7 12 10 (some 17) (some 2) Direction.S 1,
     he 6 9 11 (some 2) (some 2) Direction.T 1,
     he 1 19 14 (some 0) none Direction.S 1,
     he 2 13 15 (some 5) none Direction.S 1,
     he 4 14 16 (some 6) none Direction.T 1,
     he 7 15 17 (some 10) none Direction.T 1,
     he 6 16 18 (some 11) none Direction.S 1,
     he 5 17 19 (some 3) none Direction.S 1,
     he 0 18 13 (some 4) none Direction.T 1]
  ⟨vertices, edges, [⟨0⟩, ⟨5⟩, ⟨9⟩]⟩

/-- TSpline::new_simple (t_spline/src/shapes.rs): 8 vertices with explicit
homogeneous geometry, a T-junction at (0.5, 0.5) with z = -1, mixed knot
intervals 0.5 and 1.0.  This snapshot pushes only the two face records
found in the cited file. -/
def newSimple : TMesh :=
  let coords : List (ℚ × ℚ × ℚ × ℚ × ℚ × ℚ) :=
    [(0, 0, 0, 0, 0, 1),
     (1/2, 0, 2, 0, 1/2, 1),
     (1, 0, 4, 0, 0, 1),
     (0, 1/2, 0, 2, 1/2, 1),
     (1/2, 1/2, 2, 2, -1, 1),
     (1, 1/2, 4, 2, 1/2, 1),
     (0, 1, 0, 4, 0, 1),
     (1, 1, 4, 4, 0, 1)]
  let outgoing : List Nat := [0, 1, 5, 3, 2, 6, 12, 11]
  let vertices := coords.mapIdx (fun i c =>
    ({ geometry := ⟨c.2.2.1, c.2.2.2.1, c.2.2.2.2.1, c.2.2.2.2.2⟩,
       uv := ⟨c.1, c.2.1⟩,
       outgoing_edge := some (outgoing.getD i 0), is_t_junction := i = 4 } : ControlPoint))
  let edges : List HalfEdge :=
    [he 0 1 3 (some 13) (some 0) Direction.S (1/2),
     he 1 2 0 (some 7) (some 0) Direction.T (1/2),
     he 4 3 1 (some 8) (some 0) Direction.S (1/2),
     he 3 0 2 (some 14) (some 0) Direction.T (1/2),
     he 1 5 7 (some 19) (some 1) Direction.S (1/2),
     he 2 6 4 (some 18) (some 1) Direction.T (1/2),
     he 5 7 5 (some 9) (some 1) Direction.S (1/2),
     he 4 4 6 (some 1) (some 1) Direction.T (1/2),
     he 3 9 12 (some 2) (some 2) Direction.S (1/2),
     he 4 10 8 (some 6) (some 2) Direction.S (1/2),
     he 5 11 9 (some 17) (some 2) Direction.T (1/2),
     he 7 12 10 (some 16) (some 2) Direction.S 1,
     he 6 8 11 (some 15) (some 2) Direction.T (1/2),
     he 1 14 19 (some 0) none Direction.S (1/2),
     he 0 15 13 (some 3) none Direction.T (1/2),
     he 3 16 14 (some 12) none Direction.T (1/2),
     he 6 17 15 (some 11) none Direction.S 1,
     he 7 18 16 (some 10) none Direction.T (1/2),
     he 5 19 17 (some 5) none Direction.T (1/2),
     he 2 13 18 (some 4) none Direction.S (1/2)]
  ⟨vertices, edges, [⟨0⟩, ⟨4⟩]⟩

/-- ParamPoint subtraction (segment.rs Sub impl). -/
def ParamPoint.sub (a b : ParamPoint) : ParamPoint :=
  ⟨a.s - b.s, a.t - b.t⟩

/-- ParamPoint::cross (t_spline/src/tmesh/segment.rs). -/
def ParamPoint.cross (a b : ParamPoint) : ℚ :=
  a.s * b.t - a.t * b.s

/-- ParamPoint::orient (t_spline/src/tmesh/segment.rs). -/
def ParamPoint.orient (a b c : ParamPoint) : ℚ :=
  ParamPoint.cross (ParamPoint.sub b a) (ParamPoint.sub c a)

/-- ParamPoint::on_segment (t_spline/src/tmesh/segment.rs): the axis-aligned
bounding-box membership test, with the min and max written as the source's
comparison chains. -/
def ParamPoint.on_segment (p a b : ParamPoint) : Prop :=
  let s_max := if a.s ≥ b.s then a.s else b.s
  let s_min := if a.s ≤ b.s then a.s else b.s
  let t_max := if a.t ≥ b.t then a.t else b.t
  let t_min := if a.t ≤ b.t then a.t else b.t
  p.s ≤ s_max ∧ p.s ≥ s_min ∧ p.t ≤ t_max ∧ p.t ≥ t_min

instance (p a b : ParamPoint) : Decidable (ParamPoint.on_segment p a b) := by
  unfold ParamPoint.on_segment
  exact instDecidableAnd

/-- A parametric segment (t_spline/src/tmesh/segment.rs).  The generic
scalar is instantiated at the rationals; the tolerance from_f32(1e-9) is
modelled by the exact rational 1e-9. -/
structure Segment where
  start : ParamPoint
  stop : ParamPoint
deriving DecidableEq

/-- Segment::intersects (t_spline/src/tmesh/segment.rs): proper crossing by
opposite orientations, then the four collinear or endpoint-touching special
cases. -/
def Segment.intersects (self other : Segment) : Bool :=
  let oa := ParamPoint.orient other.start other.stop self.start
  let ob := ParamPoint.orient other.start other.stop self.stop
  let oc := ParamPoint.orient self.start self.stop other.start
  let od := ParamPoint.orient self.start self.stop other.stop
  if oa * ob < 0 ∧ oc * od < 0 then true
  else if |oa| < eps9 ∧ ParamPoint.on_segment self.start other.start other.stop then true
  else if |ob| < eps9 ∧ ParamPoint.on_segment self.stop other.start other.stop then true
  else if |oc| < eps9 ∧ ParamPoint.on_segment other.start self.start self.stop then true
  else if |od| < eps9 ∧ ParamPoint.on_segment other.stop self.start self.stop then true
  else false

/-- Replace table entry i of the edge table. -/
def setEdge (m : TMesh) (i : Nat) (e : HalfEdge) : TMesh :=
  ⟨m.vertices, m.edges.set i e, m.faces⟩

/-- Replace table entry i of the vertex table. -/
def setVertex (m : TMesh) (i : Nat) (v : ControlPoint) : TMesh :=
  ⟨m.vertices.set i v, m.edges, m.faces⟩

/-- Replace table entry i of the face table. -/
def setFace (m : TMesh) (i : Nat) (f : Face) : TMesh :=
  ⟨m.vertices, m.edges, m.faces.set i f⟩

/-- The face-bounds scan at the top of SplitFace::execute: componentwise
min and max of the origin of every edge of the face, from the f64 MAX and
MIN sentinels, as (s_min, s_max, t_min, t_max). -/
def splitFaceBounds (m : TMesh) (face : Nat) : ℚ × ℚ × ℚ × ℚ :=
  (face_edges m face).foldl
    (fun (acc : ℚ × ℚ × ℚ × ℚ) e_id =>
      let v := vertexD m (edgeD m e_id).origin
      (min acc.1 v.uv.s, max acc.2.1 v.uv.s, min acc.2.2.1 v.uv.t, max acc.2.2.2 v.uv.t))
    (f64MAX, -f64MAX, f64MAX, -f64MAX)

/-- The split parameter of SplitFace::execute: the midpoint of the face
bounds in the axis orthogonal to the cut. -/
def splitVal (m : TMesh) (face : Nat) (dir : Direction) : ℚ :=
  let b := splitFaceBounds m face
  match dir with
  | Direction.S => (b.2.2.1 + b.2.2.2) / 2
  | Direction.T => (b.1 + b.2.1) / 2

/-- The candidate scan of SplitFace::execute: the face edges that strictly
span the split value in the orthogonal coordinate, endpoints excluded by
the 1e-6 margin. -/
def split_candidates (m : TMesh) (face : Nat) (dir : Direction) : List Nat :=
  let split_val := splitVal m face dir
  (face_edges m face).filter (fun e_id =>
    let edge := edgeD m e_id
    let v_start := vertexD m edge.origin
    let v_end := vertexD m (edgeD m edge.next).origin
    let start_val := match dir with | Direction.S => v_start.uv.t | Direction.T => v_start.uv.s
    let end_val := match dir with | Direction.S => v_end.uv.t | Direction.T => v_end.uv.s
    let min_val := min start_val end_val
    let max_val := max start_val end_val
    decide (split_val > min_val + eps6 ∧ split_val < max_val - eps6))

/-- split_edge (src/commands/split_face.rs): insert a vertex on an edge at
the split coordinate, splitting the edge and, when present, its twin; the
mutation order follows the source.  Returns the mesh and the new vertex
handle.  Rational division makes the degenerate interpolation total where
Rust would produce a non-finite alpha. -/
def split_edge (m : TMesh) (edge_id : Nat) (split_val : ℚ)
    (split_dir : Direction) : TMesh × Nat :=
  let e := edgeD m edge_id
  let dest := edgeDest m e
  let origin := e.origin
  let twin_id := e.twin
  let face_id := e.face
  let old_next := e.next
  let dir := e.direction
  let interval := e.knot_interval
  let v_origin := vertexD m origin
  let v_dest := vertexD m dest
  let c1 := match split_dir with | Direction.S => v_origin.uv.t | Direction.T => v_origin.uv.s
  let c2 := match split_dir with | Direction.S => v_dest.uv.t | Direction.T => v_dest.uv.s
  let alpha := (split_val - c1) / (c2 - c1)
  let geom := Vector4.add v_origin.geometry
    (Vector4.smul (Vector4.sub v_dest.geometry v_origin.geometry) alpha)
  let uv : ParamPoint :=
    ⟨v_origin.uv.s + (v_dest.uv.s - v_origin.uv.s) * alpha,
     v_origin.uv.t + (v_dest.uv.t - v_origin.uv.t) * alpha⟩
  let new_vert_id := m.vertices.length
  let m1 : TMesh :=
    ⟨m.vertices ++ [⟨geom, uv, none, true⟩], m.edges, m.faces⟩
  let e_new_id := m1.edges.length
  let m2 := setEdge m1 edge_id
    { edgeD m1 edge_id with
        next := e_new_id
        knot_interval := (edgeD m1 edge_id).knot_interval * alpha }
  let m3 : TMesh :=
    ⟨m2.vertices,
     m2.edges ++ [⟨new_vert_id, none, face_id, old_next, edge_id, interval * (1 - alpha), dir⟩],
     m2.faces⟩
  let m4 := setEdge m3 old_next { edgeD m3 old_next with prev := e_new_id }
  let m5 := setVertex m4 new_vert_id
    { vertexD m4 new_vert_id with outgoing_edge := some e_new_id }
  match twin_id with
  | some t_id =>
    let t_face := (edgeD m5 t_id).face
    let t_next := (edgeD m5 t_id).next
    let t_dir := (edgeD m5 t_id).direction
    let t_interval := (edgeD m5 t_id).knot_interval
    let t_new_id := m5.edges.length
    let m6 := setEdge m5 t_id
      { edgeD m5 t_id with
          next := t_new_id
          knot_interval := t_interval * (1 - alpha) }
    let m7 : TMesh :=
      ⟨m6.vertices,
       m6.edges ++ [⟨new_vert_id, some edge_id, t_face, t_next, t_id, t_interval * alpha, t_dir⟩],
       m6.faces⟩
    let m8 := setEdge m7 t_next { edgeD m7 t_next with prev := t_new_id }
    let m9 := setEdge m8 edge_id { edgeD m8 edge_id with twin := some t_new_id }
    let m10 := setEdge m9 e_new_id { edgeD m9 e_new_id with twin := some t_id }
    let m11 := setEdge m10 t_id { edgeD m10 t_id with twin := some e_new_id }
    (m11, new_vert_id)
  | none => (m5, new_vert_id)

/-- The downstream scan of SplitFace::execute: walk next from the successor
of e1 and report whether e2 is met before returning to e1. -/
def downstreamScan (m : TMesh) (e1_id e2_id : Nat) : Nat → Nat → Bool
  | _, 0 => false
  | cursor, fuel + 1 =>
    if cursor = e2_id then true
    else if cursor = e1_id then false
    else downstreamScan m e1_id e2_id (edgeD m cursor).next fuel

/-- The face-pointer rewrite loop at the end of SplitFace::execute: walk
next from the cross twin, stamping the new face handle. -/
def setFaceLoop (m : TMesh) (start new_face_id : Nat) : Nat → Nat → TMesh
  | _, 0 => m
  | curr, fuel + 1 =>
    let m' := setEdge m curr { edgeD m curr with face := some new_face_id }
    let nxt := (edgeD m' curr).next
    if nxt = start then m'
    else setFaceLoop m' start new_face_id nxt fuel

/-- SplitFace::execute (src/commands/split_face.rs): face bounds, candidate
scan, the two edge splits, and the cross-edge wiring that creates the new
face.  Any candidate count other than 2 returns the mesh untouched. -/
def splitFace_execute (face : Nat) (dir : Direction) (m : TMesh) : TMesh :=
  let edges := face_edges m face
  if edges.isEmpty then m
  else
    let split_val := splitVal m face dir
    let split_candidates := split_candidates m face dir
    if split_candidates.length ≠ 2 then m
    else
      let e1_id := split_candidates.getD 0 0
      let e2_id := split_candidates.getD 1 0
      let r1 := split_edge m e1_id split_val dir
      let m1 := r1.1
      let v1 := r1.2
      let r2 := split_edge m1 e2_id split_val dir
      let m2 := r2.1
      let v2 := r2.2
      let e2_is_downstream :=
        downstreamScan m2 e1_id e2_id (edgeD m2 e1_id).next (m2.edges.length + 1)
      let w := if e2_is_downstream then
          (v1, v2, e1_id, (edgeD m2 e2_id).next, e2_id, (edgeD m2 e1_id).next)
        else
          (v2, v1, e2_id, (edgeD m2 e1_id).next, e1_id, (edgeD m2 e2_id).next)
      let v_start := w.1
      let v_end := w.2.1
      let e_in_1 := w.2.2.1
      let e_out_1 := w.2.2.2.1
      let e_in_2 := w.2.2.2.2.1
      let e_out_2 := w.2.2.2.2.2
      let cross_id := m2.edges.length
      let cross_twin_id := m2.edges.length + 1
      let new_face_id := m2.faces.length
      let len := match dir with
        | Direction.S => |(vertexD m2 v_end).uv.s - (vertexD m2 v_start).uv.s|
        | Direction.T => |(vertexD m2 v_end).uv.t - (vertexD m2 v_start).uv.t|
      let cross_edge : HalfEdge :=
        ⟨v_start, some cross_twin_id, some face, e_out_1, e_in_1, len, dir⟩
      let cross_twin : HalfEdge :=
        ⟨v_end, some cross_id, some new_face_id, e_out_2, e_in_2, len, dir⟩
      let m3 : TMesh := ⟨m2.vertices, m2.edges ++ [cross_edge, cross_twin],
        m2.faces ++ [⟨cross_twin_id⟩]⟩
      let m4 := setEdge m3 e_in_1 { edgeD m3 e_in_1 with next := cross_id }
      let m5 := setEdge m4 e_out_1 { edgeD m4 e_out_1 with prev := cross_id }
      let m6 := setFace m5 face ⟨cross_id⟩
      let m7 := setEdge m6 e_in_2 { edgeD m6 e_in_2 with next := cross_twin_id }
      let m8 := setEdge m7 e_out_2 { edgeD m7 e_out_2 with prev := cross_twin_id }
      setFaceLoop m8 cross_twin_id new_face_id cross_twin_id (m8.edges.length + 1)

/-- Claim-level well-formedness of the handle tables: every stored handle
indexes its table.  These are the reference invariants of the data model;
the Rust lookups panic when they fail. -/
def wfMesh (m : TMesh) : Prop :=
  (∀ e ∈ m.edges,
    e.origin < m.vertices.length ∧ e.next < m.edges.length ∧
    e.prev < m.edges.length ∧
    e.twin.all (fun tw => decide (tw < m.edges.length)) = true ∧
    e.face.all (fun f => decide (f < m.faces.length)) = true) ∧
  (∀ v ∈ m.vertices, v.outgoing_edge.all (fun o => decide (o < m.edges.length)) = true) ∧
  (∀ f ∈ m.faces, f.edge < m.edges.length)

/-- The axis-alignment invariant of the data model: every half-edge keeps
one parametric coordinate constant between its origin and the p2 endpoint
that the traversals use. -/
def axisAlignedMesh (m : TMesh) : Prop :=
  ∀ e ∈ m.edges,
    (vertexD m e.origin).uv.s = (vertexD m (edgeDest m e)).uv.s ∨
    (vertexD m e.origin).uv.t = (vertexD m (edgeDest m e)).uv.t

/-- The quantified half-edge invariant of the spec: prev and next are
mutually inverse and a twin, when present, points back and starts at the
destination. -/
def halfEdgeInvariants (m : TMesh) : Prop :=
  ∀ i, i < m.edges.length →
    (edgeD m (edgeD m i).prev).next = i ∧
    (edgeD m (edgeD m i).next).prev = i ∧
    (edgeD m i).twin.all
      (fun tw => decide ((edgeD m tw).twin = some i) &&
        decide ((edgeD m tw).origin = (edgeD m (edgeD m i).next).origin)) = true

instance (m : TMesh) : Decidable (halfEdgeInvariants m) := by
  unfold halfEdgeInvariants
  infer_instance

/-- The directional property that every recorded face-intersection
candidate satisfies: strictly ahead of the ray start by 1e-6. -/
def aheadOf (positive : Bool) (ray_start c : ℚ) : Prop :=
  (positive = true ∧ c - ray_start > eps6) ∨ (positive = false ∧ c - ray_start < -eps6)

/-- The extremal-vertex hypothesis for one traced direction: along the
requested sign, no vertex of the mesh lies beyond the coordinate c0. -/
def extremalFor (m : TMesh) (axis : Direction) (positive : Bool) (c0 : ℚ) : Prop :=
  ∀ u ∈ m.vertices, (positive = true → axisCoord axis u.uv ≤ c0) ∧
    (positive = false → c0 ≤ axisCoord axis u.uv)

/-- A two-vertex mesh whose parametric bounds have different s and t
ranges; used to separate the s and t interpolation bases. -/
def twoPointMesh : TMesh :=
  ⟨[{ geometry := ⟨0, 1, 0, 1⟩, uv := ⟨0, 1⟩, outgoing_edge := none, is_t_junction := false },
    { geometry := ⟨1, 3, 0, 1⟩, uv := ⟨1, 3⟩, outgoing_edge := none, is_t_junction := false }],
   [], []⟩

set_option maxRecDepth 8000 in
/-- Claim C1: for the unit-square seed mesh, the Tessellate command at
resolution 2 returns exactly the surface points (0,0,0), (1,0,0), (0,1,0),
(1,1,0), in that order. -/
theorem unit_square_resolution2_points :
    tessellate_execute 2 newUnitSquare =
      [⟨0, 0, 0⟩, ⟨1, 0, 0⟩, ⟨0, 1, 0⟩, ⟨1, 1, 0⟩] := by
  with_unfolding_all rfl

set_option maxRecDepth 4000 in
/-- Claim C2: on the unit-square seed mesh, knot inference at vertex 0
returns S = [0,0,0,0,1] and T = [0,0,0,0,1]. -/
theorem unit_square_vertex0_local_knots :
    infer_local_knots newUnitSquare 0 = (⟨0, 0, 0, 0, 1⟩, ⟨0, 0, 0, 0, 1⟩) := by
  with_unfolding_all rfl

/-- Claim C3: the evaluator yields no point exactly when the accumulated
denominator is below 1e-9 in magnitude, otherwise the numerator xyz divided
by the denominator; the Tessellate command keeps exactly the defined grid
samples, with no sentinel for the undefined ones. -/
theorem subs_denominator_gate_and_tessellate_filter (m : TMesh) (s t : ℚ)
    (knot_cache : List LocalKnots) :
    (subs m s t knot_cache = none ↔ |(subsAcc m s t knot_cache).2| < eps9) ∧
    (¬ |(subsAcc m s t knot_cache).2| < eps9 →
      subs m s t knot_cache = some
        ⟨(subsAcc m s t knot_cache).1.x / (subsAcc m s t knot_cache).2,
         (subsAcc m s t knot_cache).1.y / (subsAcc m s t knot_cache).2,
         (subsAcc m s t knot_cache).1.z / (subsAcc m s t knot_cache).2⟩) ∧
    (∀ resolution : Nat, tessellate_execute resolution m =
      (List.range (resolution * resolution)).filterMap (fun i =>
        subs m (tessSample m resolution i).1 (tessSample m resolution i).2
          (knot_vectors m))) := by
  refine ⟨?_, ?_, ?_⟩
  · simp only [subs]
    split_ifs with hd <;> simp [hd]
  · intro hd
    simp only [subs]
    rw [if_neg hd]
  · intro resolution
    simp [tessellate_execute, List.filterMap_map, Function.comp]

set_option maxRecDepth 4000 in
/-- Witness for claim C3 at the unit square and the sample (0, 0), where
the denominator is 1. -/
theorem subs_denominator_gate_witness :
    ¬ |(subsAcc newUnitSquare 0 0 (knot_vectors newUnitSquare)).2| < eps9 ∧
    subs newUnitSquare 0 0 (knot_vectors newUnitSquare) = some
      ⟨(subsAcc newUnitSquare 0 0 (knot_vectors newUnitSquare)).1.x /
         (subsAcc newUnitSquare 0 0 (knot_vectors newUnitSquare)).2,
       (subsAcc newUnitSquare 0 0 (knot_vectors newUnitSquare)).1.y /
         (subsAcc newUnitSquare 0 0 (knot_vectors newUnitSquare)).2,
       (subsAcc newUnitSquare 0 0 (knot_vectors newUnitSquare)).1.z /
         (subsAcc newUnitSquare 0 0 (knot_vectors newUnitSquare)).2⟩ := by
  have hd : ¬ |(subsAcc newUnitSquare 0 0 (knot_vectors newUnitSquare)).2| < eps9 :=
    of_decide_eq_true (by with_unfolding_all rfl)
  exact ⟨hd, (subs_denominator_gate_and_tessellate_filter newUnitSquare 0 0
    (knot_vectors newUnitSquare)).2.1 hd⟩

set_option maxRecDepth 4000 in
/-- Claim C4: at u = 3/2 and knots [0, 2, 2, 2, 1] the parameter exceeds
k4 = 1 and is not below k0 = 0, so the claimed contract demands 0; the
commands kernel returns 0 but the legacy tesselation.rs kernel, whose guard
reads knots[1] where its own support comment says knots[4], returns
27/64. -/
theorem basis_guard_divergence :
    cubic_basis_function (3/2) ⟨0, 2, 2, 2, 1⟩ = 0 ∧
    tesselation_cubic_basis_function (3/2) ⟨0, 2, 2, 2, 1⟩ = 27/64 ∧
    ¬ ((3 : ℚ)/2 < 0) ∧ (3 : ℚ)/2 > 1 :=
  ⟨by with_unfolding_all rfl, by with_unfolding_all rfl,
   of_decide_eq_true (by with_unfolding_all rfl),
   of_decide_eq_true (by with_unfolding_all rfl)⟩

set_option maxRecDepth 4000 in
/-- Counterexample to claim C6 as stated: on a mesh with s bounds (0, 1)
and t bounds (1, 3), grid position 2 of a resolution-2 tessellation is
evaluated at t-coordinate 3, while the claimed formula, which bases the
t-component at s_min, gives 2. -/
theorem grid_t_component_formula_fails :
    (tessSample twoPointMesh 2 2).2 = 3 ∧
    (bounds twoPointMesh).s.1 + ((2 / 2 : ℕ) : ℚ) / ((2 - 1 : ℕ) : ℚ) *
      ((bounds twoPointMesh).t.2 - (bounds twoPointMesh).t.1) = 2 ∧
    (3 : ℚ) ≠ 2 :=
  ⟨by with_unfolding_all rfl, by with_unfolding_all rfl,
   of_decide_eq_true (by with_unfolding_all rfl)⟩

/-- Claim C6 as amended: grid position i is evaluated at
(s_min + (i mod n)/(n-1) (s_max - s_min), t_min + (i div n)/(n-1)
(t_max - t_min)) - the t-component is based at t_min, not s_min - and a
resolution of 1 collapses every sample to the min corner. -/
theorem tessellate_grid_mapping (m : TMesh) (n i : Nat) (h : 1 ≤ n) :
    tessSample m n i =
      ((bounds m).s.1 + ((i % n : ℕ) : ℚ) / ((n - 1 : ℕ) : ℚ) *
         ((bounds m).s.2 - (bounds m).s.1),
       (bounds m).t.1 + ((i / n : ℕ) : ℚ) / ((n - 1 : ℕ) : ℚ) *
         ((bounds m).t.2 - (bounds m).t.1)) ∧
    (n = 1 → tessSample m n i = ((bounds m).s.1, (bounds m).t.1)) := by
  constructor
  · by_cases hn : n > 1
    · simp [tessSample, hn]
    · have hn1 : n = 1 := le_antisymm (Nat.not_lt.mp hn) h
      subst hn1
      simp [tessSample]
  · intro hn1
    subst hn1
    simp [tessSample]

/-- Witness for the amended claim C6 at the two-point mesh, resolution 2,
grid position 1. -/
theorem tessellate_grid_mapping_witness :
    1 ≤ 2 ∧
    (tessSample twoPointMesh 2 1 =
      ((bounds twoPointMesh).s.1 + ((1 % 2 : ℕ) : ℚ) / ((2 - 1 : ℕ) : ℚ) *
         ((bounds twoPointMesh).s.2 - (bounds twoPointMesh).s.1),
       (bounds twoPointMesh).t.1 + ((1 / 2 : ℕ) : ℚ) / ((2 - 1 : ℕ) : ℚ) *
         ((bounds twoPointMesh).t.2 - (bounds twoPointMesh).t.1)) ∧
     (2 = 1 → tessSample twoPointMesh 2 1 =
       ((bounds twoPointMesh).s.1, (bounds twoPointMesh).t.1))) :=
  ⟨by decide, tessellate_grid_mapping twoPointMesh 2 1 (by decide)⟩

/-- Claim C8: when the candidate scan of the face-split command finds a
number of spanning edges different from 2, execution returns the mesh
unchanged: no vertex, edge or face table is touched. -/
theorem split_face_noop_without_two_candidates (m : TMesh) (face : Nat)
    (dir : Direction) (h : (split_candidates m face dir).length ≠ 2) :
    splitFace_execute face dir m = m := by
  unfold splitFace_execute
  by_cases h0 : (face_edges m face).isEmpty
  · simp [h0]
  · simp [h0, h]

set_option maxRecDepth 4000 in
/-- Witness for claim C8: splitting face 0 of the T-junction mesh along S
finds exactly one candidate edge, and execution is the identity. -/
theorem split_face_noop_witness :
    (split_candidates newTJunction 0 Direction.S).length ≠ 2 ∧
    splitFace_execute 0 Direction.S newTJunction = newTJunction := by
  have h : (split_candidates newTJunction 0 Direction.S).length ≠ 2 :=
    of_decide_eq_true (by with_unfolding_all rfl)
  exact ⟨h, split_face_noop_without_two_candidates newTJunction 0 Direction.S h⟩

set_option maxRecDepth 4000 in
/-- Claim C9: in each of the three seed meshes, every half-edge satisfies
next(prev(e)) = e, prev(next(e)) = e, and when a twin is present,
twin(twin(e)) = e and origin(twin(e)) = origin(next(e)). -/
theorem seed_mesh_half_edge_invariants :
    halfEdgeInvariants newUnitSquare ∧ halfEdgeInvariants newTJunction ∧
    halfEdgeInvariants newSimple := by
  decide

/-- The intersection predicate as the disjunction of its five return-true
branches. -/
theorem intersects_true_iff (a b : Segment) :
    Segment.intersects a b = true ↔
      (ParamPoint.orient b.start b.stop a.start *
         ParamPoint.orient b.start b.stop a.stop < 0 ∧
       ParamPoint.orient a.start a.stop b.start *
         ParamPoint.orient a.start a.stop b.stop < 0) ∨
      (|ParamPoint.orient b.start b.stop a.start| < eps9 ∧
        ParamPoint.on_segment a.start b.start b.stop) ∨
      (|ParamPoint.orient b.start b.stop a.stop| < eps9 ∧
        ParamPoint.on_segment a.stop b.start b.stop) ∨
      (|ParamPoint.orient a.start a.stop b.start| < eps9 ∧
        ParamPoint.on_segment b.start a.start a.stop) ∨
      (|ParamPoint.orient a.start a.stop b.stop| < eps9 ∧
        ParamPoint.on_segment b.stop a.start a.stop) := by
  simp only [Segment.intersects]
  split_ifs with h1 h2 h3 h4 h5 <;> simp_all

/-- Claim C7: segment intersection is symmetric. -/
theorem segment_intersects_symmetric (a b : Segment) :
    Segment.intersects a b = Segment.intersects b a := by
  rw [Bool.eq_iff_iff, intersects_true_iff, intersects_true_iff]
  constructor <;> rintro (h | h | h | h | h)
  · exact Or.inl ⟨h.2, h.1⟩
  · exact Or.inr (Or.inr (Or.inr (Or.inl h)))
  · exact Or.inr (Or.inr (Or.inr (Or.inr h)))
  · exact Or.inr (Or.inl h)
  · exact Or.inr (Or.inr (Or.inl h))
  · exact Or.inl ⟨h.2, h.1⟩
  · exact Or.inr (Or.inr (Or.inr (Or.inl h)))
  · exact Or.inr (Or.inr (Or.inr (Or.inr h)))
  · exact Or.inr (Or.inl h)
  · exact Or.inr (Or.inr (Or.inl h))

theorem eps12_pos : 0 < eps12 := by norm_num [eps12]

theorem eps6_pos : 0 < eps6 := by norm_num [eps6]

/-- Any vertex returned by the spoke-circulation loop lies strictly beyond
the start vertex along the requested axis and sign, by more than the 1e-12
margin. -/
theorem findNextAux_some_spec (m : TMesh) (v : ControlPoint) (axis : Direction)
    (positive : Bool) (start : Nat) :
    ∀ fuel curr d, findNextAux m v axis positive start curr fuel = some d →
      (positive = true ∧
        axisCoord axis (vertexD m d).uv - axisCoord axis v.uv > eps12) ∨
      (positive = false ∧
        axisCoord axis (vertexD m d).uv - axisCoord axis v.uv < -eps12) := by
  intro fuel
  induction fuel with
  | zero => intro curr d h; simp [findNextAux] at h
  | succ fuel ih =>
    intro curr d h
    rw [findNextAux] at h
    rcases htw : (edgeD m curr).twin with _ | tw
    · rw [htw] at h; exact absurd h (by simp)
    · rw [htw] at h
      dsimp only at h
      split_ifs at h with hcond
      · rw [Option.some.injEq] at h
        subst h
        rcases hcond.2 with ⟨hp, hd⟩ | ⟨hp, hd⟩
        · refine Or.inl ⟨hp, ?_⟩
          cases axis <;> simpa [axisCoord] using hd
        · refine Or.inr ⟨hp, ?_⟩
          cases axis <;> simpa [axisCoord] using hd
      · rcases hpt : (edgeD m (edgeD m curr).prev).twin with _ | nxt
        · rw [hpt] at h; exact absurd h (by simp)
        · rw [hpt] at h
          dsimp only at h
          split_ifs at h with hstart
          exact ih nxt d h

/-- The directional search specification: a found vertex lies strictly
beyond the start vertex along the axis and sign. -/
theorem find_next_some_spec (m : TMesh) (v_id : Nat) (axis : Direction)
    (positive : Bool) (d : Nat)
    (h : find_next_vertex_in_direction m v_id axis positive = some d) :
    (positive = true ∧
      axisCoord axis (vertexD m d).uv - axisCoord axis (vertexD m v_id).uv > eps12) ∨
    (positive = false ∧
      axisCoord axis (vertexD m d).uv - axisCoord axis (vertexD m v_id).uv < -eps12) := by
  rw [find_next_vertex_in_direction] at h
  rcases ho : (vertexD m v_id).outgoing_edge with _ | start
  · rw [ho] at h; exact absurd h (by simp)
  · rw [ho] at h
    exact findNextAux_some_spec m (vertexD m v_id) axis positive start _ start d h

/-- One candidate step keeps the ahead-of property of the accumulator. -/
theorem faceIntersectStep_inv (m : TMesh) (axis : Direction) (positive : Bool)
    (ray_const ray_start : ℚ) (acc : ℚ × Option ℚ) (eid : Nat)
    (hacc : ∀ c, acc.2 = some c → aheadOf positive ray_start c) :
    ∀ c, (faceIntersectStep m axis positive ray_const ray_start acc eid).2 = some c →
      aheadOf positive ray_start c := by
  intro c hc
  rw [faceIntersectStep.eq_def] at hc
  dsimp only at hc
  split_ifs at hc with h1 h2 h3
  · exact hacc c hc
  · rw [Option.some.injEq] at hc
    subst hc
    rcases h3.1 with ⟨hp, hd⟩ | ⟨hp, hd⟩
    · exact Or.inl ⟨hp, by linarith⟩
    · exact Or.inr ⟨hp, by linarith⟩
  · exact hacc c hc
  · exact hacc c hc

/-- The fold of candidate steps over a face keeps the ahead-of property. -/
theorem faceIntersectFold_inv (m : TMesh) (axis : Direction) (positive : Bool)
    (ray_const ray_start : ℚ) :
    ∀ (l : List Nat) (acc : ℚ × Option ℚ),
      (∀ c, acc.2 = some c → aheadOf positive ray_start c) →
      ∀ c, (l.foldl (faceIntersectStep m axis positive ray_const ray_start) acc).2 = some c →
        aheadOf positive ray_start c := by
  intro l
  induction l with
  | nil => intro acc hacc c hc; exact hacc c hc
  | cons x xs ih =>
    intro acc hacc c hc
    exact ih _ (faceIntersectStep_inv m axis positive ray_const ray_start acc x hacc) c hc

/-- The spoke loop keeps the ahead-of property. -/
theorem faceIntersectSpokes_inv (m : TMesh) (axis : Direction) (positive : Bool)
    (ray_const ray_start : ℚ) (start : Nat) :
    ∀ fuel curr acc,
      (∀ c, acc.2 = some c → aheadOf positive ray_start c) →
      ∀ c, (faceIntersectSpokes m axis positive ray_const ray_start start
          curr fuel acc).2 = some c → aheadOf positive ray_start c := by
  intro fuel
  induction fuel with
  | zero => intro curr acc hacc c hc; exact hacc c (by simpa [faceIntersectSpokes] using hc)
  | succ fuel ih =>
    intro curr acc hacc c hc
    rw [faceIntersectSpokes] at hc
    dsimp only at hc
    have hacc' : ∀ c, (match (edgeD m curr).face with
        | some fid => (face_edges m fid).foldl
            (faceIntersectStep m axis positive ray_const ray_start) acc
        | none => acc).2 = some c → aheadOf positive ray_start c := by
      rcases hf : (edgeD m curr).face with _ | fid
      · dsimp only
        exact hacc
      · dsimp only
        exact faceIntersectFold_inv m axis positive ray_const ray_start _ acc hacc
    rcases htw : (edgeD m curr).twin with _ | tw
    · rw [htw] at hc
      exact hacc' c hc
    · rw [htw] at hc
      dsimp only at hc
      split_ifs at hc with hstart
      · exact hacc' c hc
      · exact ih _ _ hacc' c hc

/-- The face-intersection fallback specification: any returned coordinate
is strictly ahead of the start vertex along the ray, by more than 1e-6. -/
theorem find_face_intersection_some_spec (m : TMesh) (v_id : Nat)
    (axis : Direction) (positive : Bool) (c : ℚ)
    (h : find_face_intersection m v_id axis positive = some c) :
    aheadOf positive (axisCoord axis (vertexD m v_id).uv) c := by
  rw [find_face_intersection.eq_def] at h
  dsimp only at h
  rcases ho : (vertexD m v_id).outgoing_edge with _ | start
  · rw [ho] at h; exact absurd h (by simp)
  · rw [ho] at h
    dsimp only at h
    have hspec := faceIntersectSpokes_inv m axis positive _ _ start _ start (f64MAX, none)
      (by intro c hc; simp at hc) c h
    cases axis <;> simpa [axisCoord] using hspec

/-- Both knots produced by a positive ray trace are at least the start
coordinate, in order. -/
theorem trace_knots_pos_bounds (m : TMesh) (v_id : Nat) (axis : Direction) :
    axisCoord axis (vertexD m v_id).uv ≤ (trace_knots m v_id axis true).1 ∧
    (trace_knots m v_id axis true).1 ≤ (trace_knots m v_id axis true).2 := by
  rw [trace_knots]
  rcases h1 : find_next_vertex_in_direction m v_id axis true with _ | v1
  · dsimp only
    rcases h2 : find_face_intersection m v_id axis true with _ | c
    · dsimp only
      exact ⟨le_refl _, le_refl _⟩
    · dsimp only
      have := find_face_intersection_some_spec m v_id axis true c h2
      rcases this with ⟨_, hd⟩ | ⟨hp, _⟩
      · have := eps6_pos
        exact ⟨by linarith, le_refl _⟩
      · exact absurd hp (by simp)
  · dsimp only
    have hv1 := find_next_some_spec m v_id axis true v1 h1
    have hv1' : axisCoord axis (vertexD m v_id).uv < axisCoord axis (vertexD m v1).uv := by
      rcases hv1 with ⟨_, hd⟩ | ⟨hp, _⟩
      · have := eps12_pos; linarith
      · exact absurd hp (by simp)
    rcases h2 : find_next_vertex_in_direction m v1 axis true with _ | v2
    · dsimp only
      rcases h3 : find_face_intersection m v1 axis true with _ | c
      · dsimp only
        exact ⟨le_of_lt hv1', le_refl _⟩
      · dsimp only
        have := find_face_intersection_some_spec m v1 axis true c h3
        rcases this with ⟨_, hd⟩ | ⟨hp, _⟩
        · have := eps6_pos
          exact ⟨le_of_lt hv1', by linarith⟩
        · exact absurd hp (by simp)
    · dsimp only
      have hv2 := find_next_some_spec m v1 axis true v2 h2
      rcases hv2 with ⟨_, hd⟩ | ⟨hp, _⟩
      · have := eps12_pos
        exact ⟨le_of_lt hv1', by linarith⟩
      · exact absurd hp (by simp)

/-- Both knots produced by a negative ray trace are at most the start
coordinate, in order. -/
theorem trace_knots_neg_bounds (m : TMesh) (v_id : Nat) (axis : Direction) :
    (trace_knots m v_id axis false).2 ≤ (trace_knots m v_id axis false).1 ∧
    (trace_knots m v_id axis false).1 ≤ axisCoord axis (vertexD m v_id).uv := by
  rw [trace_knots]
  rcases h1 : find_next_vertex_in_direction m v_id axis false with _ | v1
  · dsimp only
    rcases h2 : find_face_intersection m v_id axis false with _ | c
    · dsimp only
      exact ⟨le_refl _, le_refl _⟩
    · dsimp only
      have := find_face_intersection_some_spec m v_id axis false c h2
      rcases this with ⟨hp, _⟩ | ⟨_, hd⟩
      · exact absurd hp (by simp)
      · have := eps6_pos
        exact ⟨le_refl _, by linarith⟩
  · dsimp only
    have hv1 := find_next_some_spec m v_id axis false v1 h1
    have hv1' : axisCoord axis (vertexD m v1).uv < axisCoord axis (vertexD m v_id).uv := by
      rcases hv1 with ⟨hp, _⟩ | ⟨_, hd⟩
      · exact absurd hp (by simp)
      · have := eps12_pos; linarith
    rcases h2 : find_next_vertex_in_direction m v1 axis false with _ | v2
    · dsimp only
      rcases h3 : find_face_intersection m v1 axis false with _ | c
      · dsimp only
        exact ⟨le_refl _, le_of_lt hv1'⟩
      · dsimp only
        have := find_face_intersection_some_spec m v1 axis false c h3
        rcases this with ⟨hp, _⟩ | ⟨_, hd⟩
        · exact absurd hp (by simp)
        · have := eps6_pos
          exact ⟨by linarith, le_of_lt hv1'⟩
    · dsimp only
      have hv2 := find_next_some_spec m v1 axis false v2 h2
      rcases hv2 with ⟨hp, _⟩ | ⟨_, hd⟩
      · exact absurd hp (by simp)
      · have := eps12_pos
        exact ⟨by linarith, le_of_lt hv1'⟩

/-- Claim C10: for every mesh and every vertex, both inferred local knot
vectors are monotonically non-decreasing and their middle entry is the
vertex's own parametric coordinate, whichever of the edge-following,
face-intersection or boundary-repetition steps supplied the outer knots. -/
theorem infer_knots_monotone_centered (m : TMesh) (v : Nat) :
    ((infer_local_knots m v).1.k0 ≤ (infer_local_knots m v).1.k1 ∧
     (infer_local_knots m v).1.k1 ≤ (infer_local_knots m v).1.k2 ∧
     (infer_local_knots m v).1.k2 ≤ (infer_local_knots m v).1.k3 ∧
     (infer_local_knots m v).1.k3 ≤ (infer_local_knots m v).1.k4) ∧
    (infer_local_knots m v).1.k2 = (vertexD m v).uv.s ∧
    ((infer_local_knots m v).2.k0 ≤ (infer_local_knots m v).2.k1 ∧
     (infer_local_knots m v).2.k1 ≤ (infer_local_knots m v).2.k2 ∧
     (infer_local_knots m v).2.k2 ≤ (infer_local_knots m v).2.k3 ∧
     (infer_local_knots m v).2.k3 ≤ (infer_local_knots m v).2.k4) ∧
    (infer_local_knots m v).2.k2 = (vertexD m v).uv.t := by
  have hsp := trace_knots_pos_bounds m v Direction.S
  have hsn := trace_knots_neg_bounds m v Direction.S
  have htp := trace_knots_pos_bounds m v Direction.T
  have htn := trace_knots_neg_bounds m v Direction.T
  simp only [axisCoord] at hsp hsn htp htn
  rw [infer_local_knots]
  dsimp only
  split_ifs <;>
    refine ⟨⟨?_, ?_, ?_, ?_⟩, ?_, ⟨?_, ?_, ?_, ?_⟩, ?_⟩ <;>
    first
      | rfl
      | linarith [hsp.1, hsp.2, hsn.1, hsn.2, htp.1, htp.2, htn.1, htn.2]

/-- Unpacked well-formedness facts for one in-range edge handle. -/
theorem wf_edgeD (m : TMesh) (hwf : wfMesh m) (i : Nat) (hi : i < m.edges.length) :
    (edgeD m i).origin < m.vertices.length ∧ (edgeD m i).next < m.edges.length ∧
    (edgeD m i).prev < m.edges.length ∧
    (∀ tw, (edgeD m i).twin = some tw → tw < m.edges.length) ∧
    (∀ f, (edgeD m i).face = some f → f < m.faces.length) := by
  have hmem : edgeD m i ∈ m.edges := by
    rw [edgeD, List.getD_eq_getElem m.edges default hi]
    exact List.getElem_mem hi
  obtain ⟨h1, h2, h3, h4, h5⟩ := hwf.1 (edgeD m i) hmem
  refine ⟨h1, h2, h3, ?_, ?_⟩
  · intro tw htw
    rw [htw] at h4
    simpa using h4
  · intro f hf
    rw [hf] at h5
    simpa using h5

/-- An in-range outgoing-edge handle indexes the edge table. -/
theorem wf_vertexD_outgoing (m : TMesh) (hwf : wfMesh m) (i : Nat)
    (hi : i < m.vertices.length) :
    ∀ o, (vertexD m i).outgoing_edge = some o → o < m.edges.length := by
  intro o ho
  have hmem : vertexD m i ∈ m.vertices := by
    rw [vertexD, List.getD_eq_getElem m.vertices default hi]
    exact List.getElem_mem hi
  have := hwf.2.1 (vertexD m i) hmem
  rw [ho] at this
  simpa using this

/-- The reference edge of an in-range face indexes the edge table. -/
theorem wf_faceD_edge (m : TMesh) (hwf : wfMesh m) (i : Nat)
    (hi : i < m.faces.length) : (faceD m i).edge < m.edges.length := by
  have hmem : faceD m i ∈ m.faces := by
    rw [faceD, List.getD_eq_getElem m.faces default hi]
    exact List.getElem_mem hi
  exact hwf.2.2 (faceD m i) hmem

/-- An in-range vertex lookup is a member of the vertex table. -/
theorem vertexD_mem (m : TMesh) (i : Nat) (hi : i < m.vertices.length) :
    vertexD m i ∈ m.vertices := by
  rw [vertexD, List.getD_eq_getElem m.vertices default hi]
  exact List.getElem_mem hi

/-- In a well-formed mesh the spoke loop only returns in-range vertex
handles. -/
theorem findNextAux_some_lt (m : TMesh) (v : ControlPoint) (axis : Direction)
    (positive : Bool) (start : Nat) (hwf : wfMesh m) :
    ∀ fuel curr d, curr < m.edges.length →
      findNextAux m v axis positive start curr fuel = some d →
      d < m.vertices.length := by
  intro fuel
  induction fuel with
  | zero => intro curr d _ h; simp [findNextAux] at h
  | succ fuel ih =>
    intro curr d hcurr h
    rw [findNextAux] at h
    rcases htw : (edgeD m curr).twin with _ | tw
    · rw [htw] at h; exact absurd h (by simp)
    · rw [htw] at h
      dsimp only at h
      have htwlt : tw < m.edges.length := (wf_edgeD m hwf curr hcurr).2.2.2.1 tw htw
      split_ifs at h with hcond
      · rw [Option.some.injEq] at h
        subst h
        exact (wf_edgeD m hwf tw htwlt).1
      · rcases hpt : (edgeD m (edgeD m curr).prev).twin with _ | nxt
        · rw [hpt] at h; exact absurd h (by simp)
        · rw [hpt] at h
          dsimp only at h
          split_ifs at h with hstart
          have hprev : (edgeD m curr).prev < m.edges.length :=
            (wf_edgeD m hwf curr hcurr).2.2.1
          have hnxt : nxt < m.edges.length :=
            (wf_edgeD m hwf _ hprev).2.2.2.1 nxt hpt
          exact ih nxt d hnxt h

/-- In a well-formed mesh the directional search only returns in-range
vertex handles. -/
theorem find_next_some_lt (m : TMesh) (v_id : Nat) (axis : Direction)
    (positive : Bool) (d : Nat) (hwf : wfMesh m)
    (h : find_next_vertex_in_direction m v_id axis positive = some d) :
    d < m.vertices.length := by
  rw [find_next_vertex_in_direction] at h
  rcases ho : (vertexD m v_id).outgoing_edge with _ | start
  · rw [ho] at h; exact absurd h (by simp)
  · rw [ho] at h
    by_cases hv : v_id < m.vertices.length
    · have hstart : start < m.edges.length := wf_vertexD_outgoing m hwf v_id hv start ho
      exact findNextAux_some_lt m _ axis positive start hwf _ start d hstart h
    · exfalso
      have hdef : vertexD m v_id = default :=
        List.getD_eq_default _ _ (Nat.le_of_not_lt hv)
      rw [hdef] at ho
      exact absurd ho (by simp [default])

/-- At an extremal vertex the directional search fails: any hit would be a
vertex strictly beyond the extremum. -/
theorem find_next_none_extremal (m : TMesh) (v_id : Nat) (axis : Direction)
    (positive : Bool) (hwf : wfMesh m)
    (hext : extremalFor m axis positive (axisCoord axis (vertexD m v_id).uv)) :
    find_next_vertex_in_direction m v_id axis positive = none := by
  rcases hres : find_next_vertex_in_direction m v_id axis positive with _ | d
  · rfl
  · exfalso
    have hspec := find_next_some_spec m v_id axis positive d hres
    have hlt := find_next_some_lt m v_id axis positive d hwf hres
    have hmem := vertexD_mem m d hlt
    have hu := hext _ hmem
    have := eps12_pos
    rcases hspec with ⟨hp, hd⟩ | ⟨hp, hd⟩
    · have := hu.1 hp
      linarith
    · have := hu.2 hp
      linarith

/-- In a well-formed mesh the p2 endpoint of an in-range edge is an
in-range vertex handle. -/
theorem edgeDest_lt (m : TMesh) (hwf : wfMesh m) (eid : Nat)
    (heid : eid < m.edges.length) :
    edgeDest m (edgeD m eid) < m.vertices.length := by
  rw [edgeDest.eq_def]
  rcases htw : (edgeD m eid).twin with _ | tw
  · dsimp only
    have hnext : (edgeD m eid).next < m.edges.length := (wf_edgeD m hwf eid heid).2.1
    exact (wf_edgeD m hwf _ hnext).1
  · dsimp only
    have htwlt : tw < m.edges.length := (wf_edgeD m hwf eid heid).2.2.2.1 tw htw
    exact (wf_edgeD m hwf tw htwlt).1

/-- At an extremal start coordinate, a candidate step on an axis-aligned
edge records nothing: a parallel edge is skipped, and an orthogonal edge
meets the ray line at a vertex coordinate, which cannot be strictly beyond
the extremum. -/
theorem faceIntersectStep_extremal (m : TMesh) (axis : Direction)
    (positive : Bool) (hwf : wfMesh m) (hax : axisAlignedMesh m)
    (ray_const c0 : ℚ) (hext : extremalFor m axis positive c0)
    (acc : ℚ × Option ℚ) (eid : Nat) (heid : eid < m.edges.length) :
    faceIntersectStep m axis positive ray_const c0 acc eid = acc := by
  have hmem : edgeD m eid ∈ m.edges := by
    rw [edgeD, List.getD_eq_getElem m.edges default heid]
    exact List.getElem_mem heid
  have haxe := hax _ hmem
  have horig : (edgeD m eid).origin < m.vertices.length := (wf_edgeD m hwf eid heid).1
  have hdest : edgeDest m (edgeD m eid) < m.vertices.length := edgeDest_lt m hwf eid heid
  have hmem1 := vertexD_mem m _ horig
  have hmem2 := vertexD_mem m _ hdest
  have hu1 := hext _ hmem1
  have he6 := eps6_pos
  have he12 := eps12_pos
  cases axis with
  | S =>
    simp only [axisCoord] at hu1
    rw [faceIntersectStep.eq_def]
    dsimp only
    split_ifs with h1 h2 h3
    · rfl
    · exfalso
      rcases haxe with hss | htt
      · have h0 : (vertexD m (edgeDest m (edgeD m eid))).uv.s -
            (vertexD m (edgeD m eid).origin).uv.s = 0 := by rw [hss]; ring
        rw [h0, mul_zero, add_zero] at h3
        rcases h3.1 with ⟨hp, hd⟩ | ⟨hp, hd⟩
        · have := hu1.1 hp
          linarith
        · have := hu1.2 hp
          linarith
      · exact h2 (by rw [htt]; simpa using he12)
    · rfl
    · rfl
  | T =>
    simp only [axisCoord] at hu1
    rw [faceIntersectStep.eq_def]
    dsimp only
    split_ifs with h1 h2 h3
    · rfl
    · exfalso
      rcases haxe with hss | htt
      · exact h2 (by rw [hss]; simpa using he12)
      · have h0 : (vertexD m (edgeDest m (edgeD m eid))).uv.t -
            (vertexD m (edgeD m eid).origin).uv.t = 0 := by rw [htt]; ring
        rw [h0, mul_zero, add_zero] at h3
        rcases h3.1 with ⟨hp, hd⟩ | ⟨hp, hd⟩
        · have := hu1.1 hp
          linarith
        · have := hu1.2 hp
          linarith
    · rfl
    · rfl

/-- The candidate fold over in-range edges records nothing at an extremal
start coordinate. -/
theorem faceIntersectFold_extremal (m : TMesh) (axis : Direction)
    (positive : Bool) (hwf : wfMesh m) (hax : axisAlignedMesh m)
    (ray_const c0 : ℚ) (hext : extremalFor m axis positive c0) :
    ∀ (l : List Nat), (∀ x ∈ l, x < m.edges.length) → ∀ acc,
      l.foldl (faceIntersectStep m axis positive ray_const c0) acc = acc := by
  intro l
  induction l with
  | nil => intro _ acc; rfl
  | cons x xs ih =>
    intro hl acc
    have hx : x < m.edges.length := hl x (by simp)
    rw [List.foldl_cons,
      faceIntersectStep_extremal m axis positive hwf hax ray_const c0 hext acc x hx]
    exact ih (fun y hy => hl y (by simp [hy])) acc

/-- Every handle collected by the face walk is in range. -/
theorem faceEdgesAux_lt (m : TMesh) (start : Nat) (hwf : wfMesh m) :
    ∀ fuel curr acc, curr < m.edges.length → (∀ x ∈ acc, x < m.edges.length) →
      ∀ x ∈ faceEdgesAux m start curr fuel acc, x < m.edges.length := by
  intro fuel
  induction fuel with
  | zero =>
    intro curr acc _ hacc x hx
    rw [faceEdgesAux] at hx
    exact hacc x (List.mem_reverse.mp hx)
  | succ fuel ih =>
    intro curr acc hcurr hacc x hx
    rw [faceEdgesAux] at hx
    have hacc' : ∀ y ∈ curr :: acc, y < m.edges.length := by
      intro y hy
      rcases List.mem_cons.mp hy with hy | hy
      · subst hy; exact hcurr
      · exact hacc y hy
    split_ifs at hx with hstop
    · exact hacc' x (List.mem_reverse.mp hx)
    · exact ih _ _ ((wf_edgeD m hwf curr hcurr).2.1) hacc' x hx

/-- Every edge handle reported by face_edges of an in-range face is in
range. -/
theorem face_edges_lt (m : TMesh) (hwf : wfMesh m) (fid : Nat)
    (hfid : fid < m.faces.length) :
    ∀ x ∈ face_edges m fid, x < m.edges.length := by
  intro x hx
  rw [face_edges] at hx
  exact faceEdgesAux_lt m _ hwf _ _ _ (wf_faceD_edge m hwf fid hfid)
    (by intro y hy; simp at hy) x hx

/-- The spoke loop records nothing at an extremal start coordinate. -/
theorem faceIntersectSpokes_extremal (m : TMesh) (axis : Direction)
    (positive : Bool) (hwf : wfMesh m) (hax : axisAlignedMesh m)
    (ray_const c0 : ℚ) (hext : extremalFor m axis positive c0) (start : Nat) :
    ∀ fuel curr acc, curr < m.edges.length →
      faceIntersectSpokes m axis positive ray_const c0 start curr fuel acc = acc := by
  intro fuel
  induction fuel with
  | zero => intro curr acc _; rfl
  | succ fuel ih =>
    intro curr acc hcurr
    rw [faceIntersectSpokes]
    dsimp only
    have hacc' : (match (edgeD m curr).face with
        | some fid => (face_edges m fid).foldl
            (faceIntersectStep m axis positive ray_const c0) acc
        | none => acc) = acc := by
      rcases hf : (edgeD m curr).face with _ | fid
      · dsimp only
      · dsimp only
        have hfid : fid < m.faces.length := (wf_edgeD m hwf curr hcurr).2.2.2.2 fid hf
        exact faceIntersectFold_extremal m axis positive hwf hax ray_const c0 hext
          _ (face_edges_lt m hwf fid hfid) acc
    rcases htw : (edgeD m curr).twin with _ | tw
    · dsimp only
      exact hacc'
    · dsimp only
      have htwlt : tw < m.edges.length := (wf_edgeD m hwf curr hcurr).2.2.2.1 tw htw
      split_ifs with hstop
      · exact hacc'
      · rw [hacc']
        exact ih _ acc ((wf_edgeD m hwf tw htwlt).2.1)

/-- At an extremal vertex the face-intersection fallback finds nothing. -/
theorem find_face_intersection_none_extremal (m : TMesh) (v_id : Nat)
    (axis : Direction) (positive : Bool) (hwf : wfMesh m)
    (hax : axisAlignedMesh m)
    (hext : extremalFor m axis positive (axisCoord axis (vertexD m v_id).uv)) :
    find_face_intersection m v_id axis positive = none := by
  rw [find_face_intersection.eq_def]
  dsimp only
  rcases ho : (vertexD m v_id).outgoing_edge with _ | start
  · rfl
  · by_cases hv : v_id < m.vertices.length
    · have hstart : start < m.edges.length := wf_vertexD_outgoing m hwf v_id hv start ho
      cases axis with
      | S =>
        simp only [axisCoord] at hext
        dsimp only
        rw [faceIntersectSpokes_extremal m Direction.S positive hwf hax _ _ hext
          start _ start (f64MAX, none) hstart]
      | T =>
        simp only [axisCoord] at hext
        dsimp only
        rw [faceIntersectSpokes_extremal m Direction.T positive hwf hax _ _ hext
          start _ start (f64MAX, none) hstart]
    · exfalso
      have hdef : vertexD m v_id = default :=
        List.getD_eq_default _ _ (Nat.le_of_not_lt hv)
      rw [hdef] at ho
      exact absurd ho (by simp [default])

/-- At an extremal vertex the whole ray trace degenerates to the boundary
repetition of the vertex's own coordinate. -/
theorem trace_knots_extremal (m : TMesh) (v_id : Nat) (axis : Direction)
    (positive : Bool) (hwf : wfMesh m) (hax : axisAlignedMesh m)
    (hext : extremalFor m axis positive (axisCoord axis (vertexD m v_id).uv)) :
    trace_knots m v_id axis positive =
      (axisCoord axis (vertexD m v_id).uv, axisCoord axis (vertexD m v_id).uv) := by
  rw [trace_knots, find_next_none_extremal m v_id axis positive hwf hext,
    find_face_intersection_none_extremal m v_id axis positive hwf hax hext]

/-- Claim C5: in a well-formed axis-aligned mesh, a control point whose s
(or t) coordinate is the minimum over all vertices gets an s (or t) knot
vector whose first four entries coincide, and a maximum gets one whose last
four entries coincide. -/
theorem boundary_knot_multiplicity_four (m : TMesh) (hwf : wfMesh m)
    (hax : axisAlignedMesh m) (v : Nat) :
    ((∀ u ∈ m.vertices, (vertexD m v).uv.s ≤ u.uv.s) →
      (infer_local_knots m v).1.k0 = (infer_local_knots m v).1.k1 ∧
      (infer_local_knots m v).1.k1 = (infer_local_knots m v).1.k2 ∧
      (infer_local_knots m v).1.k2 = (infer_local_knots m v).1.k3) ∧
    ((∀ u ∈ m.vertices, u.uv.s ≤ (vertexD m v).uv.s) →
      (infer_local_knots m v).1.k1 = (infer_local_knots m v).1.k2 ∧
      (infer_local_knots m v).1.k2 = (infer_local_knots m v).1.k3 ∧
      (infer_local_knots m v).1.k3 = (infer_local_knots m v).1.k4) ∧
    ((∀ u ∈ m.vertices, (vertexD m v).uv.t ≤ u.uv.t) →
      (infer_local_knots m v).2.k0 = (infer_local_knots m v).2.k1 ∧
      (infer_local_knots m v).2.k1 = (infer_local_knots m v).2.k2 ∧
      (infer_local_knots m v).2.k2 = (infer_local_knots m v).2.k3) ∧
    ((∀ u ∈ m.vertices, u.uv.t ≤ (vertexD m v).uv.t) →
      (infer_local_knots m v).2.k1 = (infer_local_knots m v).2.k2 ∧
      (infer_local_knots m v).2.k2 = (infer_local_knots m v).2.k3 ∧
      (infer_local_knots m v).2.k3 = (infer_local_knots m v).2.k4) := by
  refine ⟨?_, ?_, ?_, ?_⟩
  · intro hmin
    have hext : extremalFor m Direction.S false
        (axisCoord Direction.S (vertexD m v).uv) := by
      intro u hu
      exact ⟨fun hp => absurd hp (by simp),
        fun _ => by simpa [axisCoord] using hmin u hu⟩
    have htr := trace_knots_extremal m v Direction.S false hwf hax hext
    simp only [axisCoord] at htr
    rw [infer_local_knots]
    dsimp only
    rw [htr]
    simp
  · intro hmax
    have hext : extremalFor m Direction.S true
        (axisCoord Direction.S (vertexD m v).uv) := by
      intro u hu
      exact ⟨fun _ => by simpa [axisCoord] using hmax u hu,
        fun hp => absurd hp (by simp)⟩
    have htr := trace_knots_extremal m v Direction.S true hwf hax hext
    simp only [axisCoord] at htr
    rw [infer_local_knots]
    dsimp only
    rw [htr]
    split_ifs <;> simp_all
  · intro hmin
    have hext : extremalFor m Direction.T false
        (axisCoord Direction.T (vertexD m v).uv) := by
      intro u hu
      exact ⟨fun hp => absurd hp (by simp),
        fun _ => by simpa [axisCoord] using hmin u hu⟩
    have htr := trace_knots_extremal m v Direction.T false hwf hax hext
    simp only [axisCoord] at htr
    rw [infer_local_knots]
    dsimp only
    rw [htr]
    simp
  · intro hmax
    have hext : extremalFor m Direction.T true
        (axisCoord Direction.T (vertexD m v).uv) := by
      intro u hu
      exact ⟨fun _ => by simpa [axisCoord] using hmax u hu,
        fun hp => absurd hp (by simp)⟩
    have htr := trace_knots_extremal m v Direction.T true hwf hax hext
    simp only [axisCoord] at htr
    rw [infer_local_knots]
    dsimp only
    rw [htr]
    split_ifs <;> simp_all

set_option maxRecDepth 4000 in
/-- Witness for claim C5 at the unit square: vertex 0 sits at the s
minimum, and its s knot vector has multiplicity 4 at the front. -/
theorem boundary_knot_multiplicity_witness :
    wfMesh newUnitSquare ∧ axisAlignedMesh newUnitSquare ∧
    (∀ u ∈ newUnitSquare.vertices, (vertexD newUnitSquare 0).uv.s ≤ u.uv.s) ∧
    ((infer_local_knots newUnitSquare 0).1.k0 =
       (infer_local_knots newUnitSquare 0).1.k1 ∧
     (infer_local_knots newUnitSquare 0).1.k1 =
       (infer_local_knots newUnitSquare 0).1.k2 ∧
     (infer_local_knots newUnitSquare 0).1.k2 =
       (infer_local_knots newUnitSquare 0).1.k3) := by
  have hwf : wfMesh newUnitSquare := by
    unfold wfMesh
    refine ⟨?_, ?_, ?_⟩ <;> decide
  have hax : axisAlignedMesh newUnitSquare := by
    unfold axisAlignedMesh
    exact of_decide_eq_true (by with_unfolding_all rfl)
  have hmin : ∀ u ∈ newUnitSquare.vertices,
      (vertexD newUnitSquare 0).uv.s ≤ u.uv.s := by
    exact of_decide_eq_true (by with_unfolding_all rfl)
  exact ⟨hwf, hax, hmin,
    (boundary_knot_multiplicity_four newUnitSquare hwf hax 0).1 hmin⟩

end TSP
